import Mathlib

/-!
Verification of the pokedex-api backend (FastAPI + SQLModel) against its
natural-language specification.  The relevant Python code is shallowly
embedded: the relational store is a list of rows, `datetime.utcnow()` is an
explicit `now : Nat` parameter (seconds since the epoch), HTTP exceptions are
an explicit error type carrying the status code and detail string, and the
external PokeAPI HTTP call is an explicit outcome parameter.
-/

/-- An `HTTPException` as raised by the routers: status code plus detail. -/
structure ApiErr where
  status : Nat
  detail : String
deriving DecidableEq, Repr

/-- One stat entry of the normalized catalog dict (`{"name": ..., "base": ...}`). -/
structure StatEntry where
  name : String
  base : Nat
deriving DecidableEq, Repr

/-- The normalized Pokémon dict produced by `PokeAPIService._transform_pokemon`:
`{id, name, sprite, types, stats, abilities}`. -/
structure Pokemon where
  id : Nat
  name : String
  sprite : String
  types : List String
  stats : List StatEntry
  abilities : List String
deriving DecidableEq, Repr

/-- A row of the `pokedexentry` table (`app.models.PokedexEntry`).
`capture_date` and `created_at` are UTC timestamps in seconds. -/
structure PokedexEntry where
  id : Nat
  owner_id : Nat
  pokemon_id : Nat
  pokemon_name : String
  pokemon_sprite : String
  is_captured : Bool
  capture_date : Option Nat
  nickname : Option String
  notes : Option String
  favorite : Bool
  created_at : Nat
deriving DecidableEq, Repr

/-- The request body of `POST /api/v1/pokedex` (`app.models.PokedexEntryCreate`). -/
structure PokedexEntryCreate where
  pokemon_id : Nat
  nickname : Option String := none
  notes : Option String := none
  is_captured : Bool := false
  favorite : Bool := false
deriving DecidableEq, Repr

/-- The request body of `PATCH /api/v1/pokedex/{entry_id}`
(`app.models.PokedexEntryUpdate`).  Pydantic distinguishes an unset field from
an explicit `null`, so each field is an outer `Option` (set or unset) around
its payload value. -/
structure PokedexEntryUpdate where
  nickname : Option (Option String) := none
  notes : Option (Option String) := none
  is_captured : Option Bool := none
  favorite : Option Bool := none
deriving DecidableEq, Repr

/-- The row inserted by `add_pokemon_to_pokedex`: denormalized fields come from
the normalized catalog dict `pd`, the flags from the request body, and
`capture_date` is stamped now exactly when the initial `is_captured` is true. -/
def newPokedexEntry (uid : Nat) (data : PokedexEntryCreate) (pd : Pokemon)
    (now newId : Nat) : PokedexEntry :=
  { id := newId
    owner_id := uid
    pokemon_id := pd.id
    pokemon_name := pd.name
    pokemon_sprite := pd.sprite
    is_captured := data.is_captured
    capture_date := if data.is_captured then some now else none
    nickname := data.nickname
    notes := data.notes
    favorite := data.favorite
    created_at := now }

/-- `add_pokemon_to_pokedex` (app/routers/pokedex.py).  The store is the list
of existing entries; `fetch` is the outcome of
`PokeAPIService.sync_get_pokemon(data.pokemon_id)`; `newId` is the primary key
the database assigns to the inserted row.  Returns the new store and the
created row, or the `HTTPException` raised. -/
def add_pokemon_to_pokedex (db : List PokedexEntry) (uid : Nat)
    (data : PokedexEntryCreate) (fetch : Except ApiErr Pokemon)
    (now newId : Nat) : Except ApiErr (List PokedexEntry × PokedexEntry) :=
  if (db.find? (fun e => e.owner_id == uid && e.pokemon_id == data.pokemon_id)).isSome then
    .error ⟨400, "Pokemon already in your Pokedex"⟩
  else
    match fetch with
    | .error er => .error er
    | .ok pd =>
      let entry := newPokedexEntry uid data pd now newId
      .ok (db ++ [entry], entry)

/-- The store that results from an add request: the new store on success, the
unchanged store when the handler raised before committing. -/
def persistedEntries (r : Except ApiErr (List PokedexEntry × PokedexEntry))
    (db : List PokedexEntry) : List PokedexEntry :=
  match r with
  | .ok (db', _) => db'
  | .error _ => db

/-- The `setattr` loop of `update_pokedex_entry`: apply exactly the supplied
fields of the patch body to the row. -/
def applyUpdate (e : PokedexEntry) (u : PokedexEntryUpdate) : PokedexEntry :=
  let e1 := match u.nickname with
    | none => e
    | some v => { e with nickname := v }
  let e2 := match u.notes with
    | none => e1
    | some v => { e1 with notes := v }
  let e3 := match u.is_captured with
    | none => e2
    | some v => { e2 with is_captured := v }
  match u.favorite with
  | none => e3
  | some v => { e3 with favorite := v }

/-- The row transformation of `update_pokedex_entry`: apply the supplied
fields, then, if `is_captured` was supplied, the row is now captured and has
no capture date, stamp `capture_date` with the current time. -/
def patchEntry (e : PokedexEntry) (u : PokedexEntryUpdate) (now : Nat) : PokedexEntry :=
  let e1 := applyUpdate e u
  if u.is_captured.isSome && e1.is_captured && e1.capture_date == none then
    { e1 with capture_date := some now }
  else
    e1

/-- `update_pokedex_entry` (app/routers/pokedex.py): look the row up by primary
key, check ownership, patch it and write it back. -/
def update_pokedex_entry (db : List PokedexEntry) (uid entryId : Nat)
    (u : PokedexEntryUpdate) (now : Nat) :
    Except ApiErr (List PokedexEntry × PokedexEntry) :=
  match db.find? (fun e => e.id == entryId) with
  | none => .error ⟨404, "Pokedex entry not found"⟩
  | some e =>
    if e.owner_id != uid then
      .error ⟨403, "Not allowed to access this Pokédex entry"⟩
    else
      let e1 := patchEntry e u now
      .ok (db.map (fun x => if x.id == entryId then e1 else x), e1)

theorem applyUpdate_capture_date (e : PokedexEntry) (u : PokedexEntryUpdate) :
    (applyUpdate e u).capture_date = e.capture_date := by
  unfold applyUpdate
  cases u.nickname <;> cases u.notes <;> cases u.is_captured <;> cases u.favorite <;> rfl

theorem applyUpdate_is_captured (e : PokedexEntry) (u : PokedexEntryUpdate) :
    (applyUpdate e u).is_captured = u.is_captured.getD e.is_captured := by
  unfold applyUpdate
  cases u.nickname <;> cases u.notes <;> cases u.is_captured <;> cases u.favorite <;> rfl

theorem applyUpdate_frame (e : PokedexEntry) (u : PokedexEntryUpdate) :
    (applyUpdate e u).id = e.id ∧
    (applyUpdate e u).owner_id = e.owner_id ∧
    (applyUpdate e u).pokemon_id = e.pokemon_id ∧
    (applyUpdate e u).pokemon_name = e.pokemon_name ∧
    (applyUpdate e u).pokemon_sprite = e.pokemon_sprite ∧
    (applyUpdate e u).created_at = e.created_at := by
  unfold applyUpdate
  cases u.nickname <;> cases u.notes <;> cases u.is_captured <;> cases u.favorite <;>
    exact ⟨rfl, rfl, rfl, rfl, rfl, rfl⟩

theorem patchEntry_frame_fields (e : PokedexEntry) (u : PokedexEntryUpdate) (now : Nat) :
    (patchEntry e u now).id = e.id ∧
    (patchEntry e u now).owner_id = e.owner_id ∧
    (patchEntry e u now).pokemon_id = e.pokemon_id ∧
    (patchEntry e u now).pokemon_name = e.pokemon_name ∧
    (patchEntry e u now).pokemon_sprite = e.pokemon_sprite ∧
    (patchEntry e u now).created_at = e.created_at := by
  obtain ⟨h1, h2, h3, h4, h5, h6⟩ := applyUpdate_frame e u
  by_cases h : (u.is_captured.isSome && (applyUpdate e u).is_captured
      && ((applyUpdate e u).capture_date == none)) = true <;>
    simp [patchEntry, h, h1, h2, h3, h4, h5, h6]

theorem patchEntry_capture_date_of_some (e : PokedexEntry) (u : PokedexEntryUpdate)
    (now d : Nat) (h : e.capture_date = some d) :
    (patchEntry e u now).capture_date = some d := by
  have hcond : (u.is_captured.isSome && (applyUpdate e u).is_captured
      && ((applyUpdate e u).capture_date == none)) = false := by
    rw [applyUpdate_capture_date, h]
    simp
  simp [patchEntry, hcond, applyUpdate_capture_date, h]

theorem patchEntry_capture_date_none_true (e : PokedexEntry) (u : PokedexEntryUpdate)
    (now : Nat) (h : e.capture_date = none) (hu : u.is_captured = some true) :
    (patchEntry e u now).capture_date = some now := by
  have hcond : (u.is_captured.isSome && (applyUpdate e u).is_captured
      && ((applyUpdate e u).capture_date == none)) = true := by
    rw [applyUpdate_is_captured, applyUpdate_capture_date, hu, h]
    rfl
  simp [patchEntry, hcond]

theorem patchEntry_capture_date_none_other (e : PokedexEntry) (u : PokedexEntryUpdate)
    (now : Nat) (h : e.capture_date = none) (hu : u.is_captured ≠ some true) :
    (patchEntry e u now).capture_date = none := by
  have hcond : (u.is_captured.isSome && (applyUpdate e u).is_captured
      && ((applyUpdate e u).capture_date == none)) = false := by
    rcases hcap : u.is_captured with _ | b
    · simp [hcap]
    · cases b
      · rw [applyUpdate_is_captured, hcap]
        rfl
      · exact absurd hcap hu
  simp only [patchEntry]
  rw [hcond]
  simp [applyUpdate_capture_date, h]

theorem add_find_none (db : List PokedexEntry) (uid pid : Nat)
    (h : ∀ e ∈ db, ¬(e.owner_id = uid ∧ e.pokemon_id = pid)) :
    db.find? (fun e => e.owner_id == uid && e.pokemon_id == pid) = none := by
  rw [List.find?_eq_none]
  intro e he hc
  simp only [Bool.and_eq_true, beq_iff_eq] at hc
  exact h e he hc

/-- C1: if a collection entry with the same (owner, catalog id) pair already
exists, `add_pokemon_to_pokedex` fails with the duplicate-entry error and
persists nothing; a first add of a fresh pair succeeds, and a second identical
add on the resulting store fails with the duplicate-entry error. -/
theorem add_pokemon_duplicate_spec (db : List PokedexEntry) (uid : Nat)
    (data : PokedexEntryCreate) (fetch : Except ApiErr Pokemon)
    (now newId : Nat) (pd : Pokemon) :
    ((∃ e ∈ db, e.owner_id = uid ∧ e.pokemon_id = data.pokemon_id) →
      add_pokemon_to_pokedex db uid data fetch now newId
        = .error ⟨400, "Pokemon already in your Pokedex"⟩ ∧
      persistedEntries (add_pokemon_to_pokedex db uid data fetch now newId) db = db) ∧
    ((∀ e ∈ db, ¬(e.owner_id = uid ∧ e.pokemon_id = data.pokemon_id)) →
      pd.id = data.pokemon_id →
      add_pokemon_to_pokedex db uid data (.ok pd) now newId
        = .ok (db ++ [newPokedexEntry uid data pd now newId],
               newPokedexEntry uid data pd now newId) ∧
      ∀ fetch2 now2 newId2,
        add_pokemon_to_pokedex (db ++ [newPokedexEntry uid data pd now newId])
            uid data fetch2 now2 newId2
          = .error ⟨400, "Pokemon already in your Pokedex"⟩) := by
  constructor
  · rintro ⟨e, he, h1, h2⟩
    have hsome : (db.find? (fun e => e.owner_id == uid && e.pokemon_id == data.pokemon_id)).isSome := by
      rw [List.find?_isSome]
      exact ⟨e, he, by simp [h1, h2]⟩
    constructor
    · simp [add_pokemon_to_pokedex, hsome]
    · simp [persistedEntries, add_pokemon_to_pokedex, hsome]
  · intro h hpd
    have hnone := add_find_none db uid data.pokemon_id h
    constructor
    · simp [add_pokemon_to_pokedex, hnone]
    · intro fetch2 now2 newId2
      have hsome : ((db ++ [newPokedexEntry uid data pd now newId]).find?
          (fun e => e.owner_id == uid && e.pokemon_id == data.pokemon_id)).isSome := by
        rw [List.find?_isSome]
        refine ⟨newPokedexEntry uid data pd now newId, List.mem_append_right _ (List.mem_singleton_self _), ?_⟩
        simp [newPokedexEntry, hpd]
      simp only [add_pokemon_to_pokedex, hsome]
      simp

theorem add_pokemon_duplicate_spec_witness :
    add_pokemon_to_pokedex [] 1
        { pokemon_id := 25 } (.ok { id := 25, name := "", sprite := "", types := [], stats := [], abilities := [] }) 5 7
      = .ok ([] ++ [newPokedexEntry 1 { pokemon_id := 25 }
               { id := 25, name := "", sprite := "", types := [], stats := [], abilities := [] } 5 7],
             newPokedexEntry 1 { pokemon_id := 25 }
               { id := 25, name := "", sprite := "", types := [], stats := [], abilities := [] } 5 7) ∧
    add_pokemon_to_pokedex ([] ++ [newPokedexEntry 1 { pokemon_id := 25 }
               { id := 25, name := "", sprite := "", types := [], stats := [], abilities := [] } 5 7]) 1
        { pokemon_id := 25 } (.ok { id := 25, name := "", sprite := "", types := [], stats := [], abilities := [] }) 6 8
      = .error ⟨400, "Pokemon already in your Pokedex"⟩ := by
  have h := (add_pokemon_duplicate_spec [] 1 { pokemon_id := 25 }
      (.ok { id := 25, name := "", sprite := "", types := [], stats := [], abilities := [] }) 5 7
      { id := 25, name := "", sprite := "", types := [], stats := [], abilities := [] }).2
    (by simp) rfl
  exact ⟨h.1, h.2 (.ok { id := 25, name := "", sprite := "", types := [], stats := [], abilities := [] }) 6 8⟩

/-- C2: `capture_date` is set exactly once, at the false-to-true transition of
`is_captured`: add stamps it with now when the initial `is_captured` is true
and leaves it null otherwise; patch stamps it only when `is_captured` is being
supplied as true while `capture_date` is null; once non-null it is never
changed or cleared by any later patch, including one setting `is_captured`
false. -/
theorem capture_date_set_once_spec :
    (∀ (db : List PokedexEntry) (uid : Nat) (data : PokedexEntryCreate) (pd : Pokemon)
       (now newId : Nat) (db' : List PokedexEntry) (ent : PokedexEntry),
       add_pokemon_to_pokedex db uid data (.ok pd) now newId = .ok (db', ent) →
       ent.capture_date = if data.is_captured then some now else none) ∧
    (∀ (e : PokedexEntry) (u : PokedexEntryUpdate) (now d : Nat),
       e.capture_date = some d → (patchEntry e u now).capture_date = some d) ∧
    (∀ (e : PokedexEntry) (u : PokedexEntryUpdate) (now : Nat),
       e.capture_date = none → u.is_captured = some true →
       (patchEntry e u now).capture_date = some now) ∧
    (∀ (e : PokedexEntry) (u : PokedexEntryUpdate) (now : Nat),
       e.capture_date = none → u.is_captured ≠ some true →
       (patchEntry e u now).capture_date = none) := by
  refine ⟨?_, patchEntry_capture_date_of_some, patchEntry_capture_date_none_true,
    patchEntry_capture_date_none_other⟩
  intro db uid data pd now newId db' ent hadd
  by_cases hdup : (db.find? (fun e => e.owner_id == uid && e.pokemon_id == data.pokemon_id)).isSome
  · simp [add_pokemon_to_pokedex, hdup] at hadd
  · simp only [add_pokemon_to_pokedex, hdup] at hadd
    simp only [Bool.false_eq_true, if_false, Except.ok.injEq, Prod.mk.injEq] at hadd
    obtain ⟨-, rfl⟩ := hadd
    rfl

/-- A concrete uncaptured collection entry used by the witnesses. -/
def sampleEntry : PokedexEntry :=
  { id := 1
    owner_id := 1
    pokemon_id := 25
    pokemon_name := ""
    pokemon_sprite := ""
    is_captured := false
    capture_date := none
    nickname := none
    notes := none
    favorite := false
    created_at := 0 }

theorem capture_date_set_once_spec_witness :
    (patchEntry sampleEntry { is_captured := some true } 9).capture_date = some 9 ∧
    (patchEntry { sampleEntry with is_captured := true, capture_date := some 3 }
      { is_captured := some false } 11).capture_date = some 3 ∧
    (patchEntry sampleEntry { is_captured := some false } 11).capture_date = none := by
  refine ⟨capture_date_set_once_spec.2.2.1 _ _ _ rfl rfl,
    capture_date_set_once_spec.2.1 _ _ _ _ rfl,
    capture_date_set_once_spec.2.2.2 _ _ _ rfl (by decide)⟩

/-- C10: a patch of a collection entry leaves `id`, `owner_id`, `pokemon_id`,
`pokemon_name`, `pokemon_sprite` and `created_at` unchanged; `capture_date`
changes only through the `is_captured` side effect (the patch body, modelled by
`PokedexEntryUpdate`, can carry only nickname, notes, is_captured and
favorite); and the update handler leaves every other row of the store
untouched. -/
theorem patch_frame_spec :
    (∀ (e : PokedexEntry) (u : PokedexEntryUpdate) (now : Nat),
      (patchEntry e u now).id = e.id ∧
      (patchEntry e u now).owner_id = e.owner_id ∧
      (patchEntry e u now).pokemon_id = e.pokemon_id ∧
      (patchEntry e u now).pokemon_name = e.pokemon_name ∧
      (patchEntry e u now).pokemon_sprite = e.pokemon_sprite ∧
      (patchEntry e u now).created_at = e.created_at ∧
      ((patchEntry e u now).capture_date = e.capture_date ∨
        (e.capture_date = none ∧ u.is_captured = some true ∧
          (patchEntry e u now).capture_date = some now))) ∧
    (∀ (db : List PokedexEntry) (uid entryId : Nat) (u : PokedexEntryUpdate)
       (now : Nat) (db' : List PokedexEntry) (ent : PokedexEntry),
      update_pokedex_entry db uid entryId u now = .ok (db', ent) →
      ∀ x ∈ db, x.id ≠ entryId → x ∈ db') := by
  constructor
  · intro e u now
    obtain ⟨h1, h2, h3, h4, h5, h6⟩ := patchEntry_frame_fields e u now
    refine ⟨h1, h2, h3, h4, h5, h6, ?_⟩
    rcases hd : e.capture_date with _ | d
    · by_cases hu : u.is_captured = some true
      · exact Or.inr ⟨rfl, hu, patchEntry_capture_date_none_true e u now hd hu⟩
      · exact Or.inl (patchEntry_capture_date_none_other e u now hd hu)
    · exact Or.inl (patchEntry_capture_date_of_some e u now d hd)
  · intro db uid entryId u now db' ent hupd x hx hne
    unfold update_pokedex_entry at hupd
    rcases hf : db.find? (fun e => e.id == entryId) with _ | e <;> rw [hf] at hupd <;>
      dsimp only at hupd
    · exact absurd hupd (by simp)
    · by_cases how : (e.owner_id != uid) = true
      · rw [if_pos how] at hupd
        exact absurd hupd (by simp)
      · rw [if_neg how] at hupd
        simp only [Except.ok.injEq, Prod.mk.injEq] at hupd
        obtain ⟨⟨rfl, -⟩⟩ := hupd
        have hfix : (fun y : PokedexEntry =>
            if y.id == entryId then patchEntry e u now else y) x = x := by
          simp [hne]
        rw [← hfix]
        exact List.mem_map_of_mem _ hx

theorem patch_frame_spec_witness :
    (patchEntry sampleEntry { nickname := some (some "x"), is_captured := some true } 9).owner_id = 1 ∧
    (patchEntry sampleEntry { nickname := some (some "x"), is_captured := some true } 9).created_at = 0 := by
  have h := patch_frame_spec.1 sampleEntry
    { nickname := some (some "x"), is_captured := some true } 9
  exact ⟨h.2.1, h.2.2.2.2.2.1⟩

/-- `datetime.date()` of a UTC timestamp in seconds: the calendar day number. -/
def dateOf (t : Nat) : Nat := t / 86400

/-- Insert a day into a strictly ascending list of distinct days, keeping it
strictly ascending (one step of Python's `sorted(set(...))`). -/
def insertDate (d : Nat) : List Nat → List Nat
  | [] => [d]
  | x :: l =>
    if d < x then d :: x :: l
    else if d = x then x :: l
    else x :: insertDate d l

/-- `sorted({...})` over a multiset of days: the distinct days in strictly
ascending order. -/
def sortedDates (l : List Nat) : List Nat := l.foldr insertDate []

/-- The capture-date set of `get_pokedex_stats`:
`sorted({e.capture_date.date() for e in entries if e.capture_date is not None})`. -/
def captureDates (entries : List PokedexEntry) : List Nat :=
  sortedDates (entries.filterMap (fun e => e.capture_date.map dateOf))

/-- The streak loop of `get_pokedex_stats`, carrying `previous_date`,
`current_streak` and `longest_streak` exactly as the Python loop does. -/
def streakLoop : List Nat → Option Nat → Nat → Nat → Nat
  | [], _, _, longest => longest
  | d :: rest, prev, cur, longest =>
    let cur' : Nat :=
      match prev with
      | none => 1
      | some p => if d = p + 1 then cur + 1 else 1
    streakLoop rest (some d) cur' (if cur' > longest then cur' else longest)

/-- `capture_streak_days` as computed by `get_pokedex_stats`
(app/routers/pokedex.py). -/
def capture_streak_days (entries : List PokedexEntry) : Nat :=
  streakLoop (captureDates entries) none 0 0

/-- The runs of the spec: split the ascending distinct date list into runs,
a run breaking exactly when the gap between consecutive dates exceeds one
day. -/
def specRuns : List Nat → List (List Nat)
  | [] => []
  | [d] => [[d]]
  | d :: d2 :: rest =>
    match specRuns (d2 :: rest) with
    | r :: rs => if d2 ≤ d + 1 then (d :: r) :: rs else [d] :: r :: rs
    | [] => [[d]]

/-- The length of the longest run. -/
def longestRun (rs : List (List Nat)) : Nat := rs.foldr (fun r m => max r.length m) 0

theorem specRuns_cons (d : Nat) (rest : List Nat) :
    ∃ r rs, specRuns (d :: rest) = (d :: r) :: rs := by
  induction rest generalizing d with
  | nil => exact ⟨[], [], rfl⟩
  | cons d2 rest2 ih =>
    obtain ⟨r, rs, h⟩ := ih d2
    by_cases hle : d2 ≤ d + 1
    · exact ⟨d2 :: r, rs, by simp [specRuns, h, hle]⟩
    · exact ⟨[], (d2 :: r) :: rs, by simp [specRuns, h, hle]⟩

/-- The tail contribution of the streak loop: the best streak obtainable from
the remaining dates, given the previous date and the current run length. -/
def streakTail : List Nat → Nat → Nat → Nat
  | [], _, _ => 0
  | d :: rest, p, cur =>
    let cur' : Nat := if d = p + 1 then cur + 1 else 1
    max cur' (streakTail rest d cur')

theorem streakLoop_eq_max (l : List Nat) (p : Nat) (cur longest : Nat) :
    streakLoop l (some p) cur longest = max longest (streakTail l p cur) := by
  induction l generalizing p cur longest with
  | nil => simp [streakLoop, streakTail]
  | cons d rest ih =>
    simp only [streakLoop, streakTail]
    rw [ih]
    rcases Nat.lt_or_ge longest (if d = p + 1 then cur + 1 else 1) with h | h
    · rw [if_pos h]
      omega
    · rw [if_neg (by omega)]
      omega

theorem mem_insertDate (y d : Nat) : ∀ l, y ∈ insertDate d l → y = d ∨ y ∈ l := by
  intro l
  induction l with
  | nil => simp [insertDate]
  | cons x l ih =>
    simp only [insertDate]
    by_cases h1 : d < x
    · simp only [if_pos h1, List.mem_cons]
      tauto
    · by_cases h2 : d = x
      · simp only [if_neg h1, if_pos h2, List.mem_cons]
        tauto
      · simp only [if_neg h1, if_neg h2, List.mem_cons]
        intro h
        rcases h with h | h
        · tauto
        · rcases ih h with h | h <;> tauto

theorem insertDate_pairwise (d : Nat) (l : List Nat) (h : l.Pairwise (· < ·)) :
    (insertDate d l).Pairwise (· < ·) := by
  induction l with
  | nil => simp [insertDate]
  | cons x l ih =>
    rw [List.pairwise_cons] at h
    obtain ⟨hx, hl⟩ := h
    simp only [insertDate]
    by_cases h1 : d < x
    · rw [if_pos h1, List.pairwise_cons]
      exact ⟨fun b hb => by
        rcases List.mem_cons.1 hb with rfl | hb
        · exact h1
        · exact h1.trans (hx b hb), List.pairwise_cons.2 ⟨hx, hl⟩⟩
    · by_cases h2 : d = x
      · rw [if_neg h1, if_pos h2]
        exact List.pairwise_cons.2 ⟨hx, hl⟩
      · rw [if_neg h1, if_neg h2, List.pairwise_cons]
        refine ⟨fun b hb => ?_, ih hl⟩
        rcases mem_insertDate b d l hb with rfl | hb
        · omega
        · exact hx b hb

theorem sortedDates_pairwise (l : List Nat) : (sortedDates l).Pairwise (· < ·) := by
  induction l with
  | nil => simp [sortedDates]
  | cons x l ih => exact insertDate_pairwise x _ ih

/-- The longest run length when the run in progress (of length `k`) continues
into the first of the remaining runs. -/
def bump : List (List Nat) → Nat → Nat
  | [], k => k
  | r :: rs, k => max (r.length + k) (longestRun rs)

theorem longestRun_cons (r : List Nat) (rs : List (List Nat)) :
    longestRun (r :: rs) = max r.length (longestRun rs) := rfl

theorem bump_cons (r : List Nat) (rs : List (List Nat)) (k : Nat) :
    bump (r :: rs) k = max (r.length + k) (longestRun rs) := rfl

theorem streakTail_spec (l : List Nat) : ∀ (p cur : Nat), 1 ≤ cur →
    List.Chain (· < ·) p l →
    max cur (streakTail l p cur) =
      if l.head? = some (p + 1) then bump (specRuns l) cur
      else max cur (longestRun (specRuns l)) := by
  induction l with
  | nil => intro p cur hcur hchain; simp [streakTail, specRuns, longestRun]
  | cons d rest ih =>
    intro p cur hcur hchain
    rw [List.chain_cons] at hchain
    obtain ⟨hpd, hchain'⟩ := hchain
    have hlhs : streakTail (d :: rest) p cur
        = max (if d = p + 1 then cur + 1 else 1)
            (streakTail rest d (if d = p + 1 then cur + 1 else 1)) := rfl
    have hcur1 : 1 ≤ (if d = p + 1 then cur + 1 else 1) := by
      by_cases h : d = p + 1 <;> simp [h]
    have IH := ih d (if d = p + 1 then cur + 1 else 1) hcur1 hchain'
    cases rest with
    | nil =>
      by_cases hd : d = p + 1 <;>
        simp only [hlhs, streakTail, specRuns, longestRun, List.head?_cons,
          Option.some.injEq, hd, if_pos, if_neg, List.foldr, List.length_cons,
          List.length_nil, bump] <;>
        simp <;> omega
    | cons d2 rest2 =>
      have hd2 : d < d2 := (List.chain_cons.1 hchain').1
      obtain ⟨r, rs, hruns⟩ := specRuns_cons d2 rest2
      by_cases hd : d = p + 1 <;> by_cases hadj : d2 = d + 1
      · have hlhs2 : streakTail (d :: d2 :: rest2) p cur
            = max (cur + 1) (streakTail (d2 :: rest2) d (cur + 1)) := by
          simp [streakTail, hd]
        have IH := ih d (cur + 1) (by omega) hchain'
        simp only [List.head?_cons, Option.some.injEq] at IH
        rw [if_pos hadj, hruns, bump_cons] at IH
        have hruns2 : specRuns (d :: d2 :: rest2) = (d :: d2 :: r) :: rs := by
          simp [specRuns, hruns, Nat.le_of_eq hadj]
        simp only [List.head?_cons, Option.some.injEq]
        rw [if_pos hd, hruns2, bump_cons, hlhs2]
        simp only [List.length_cons] at IH ⊢
        omega
      · have hnle : ¬ (d2 ≤ d + 1) := by omega
        have hlhs2 : streakTail (d :: d2 :: rest2) p cur
            = max (cur + 1) (streakTail (d2 :: rest2) d (cur + 1)) := by
          simp [streakTail, hd]
        have IH := ih d (cur + 1) (by omega) hchain'
        simp only [List.head?_cons, Option.some.injEq] at IH
        rw [if_neg hadj, hruns, longestRun_cons] at IH
        have hruns2 : specRuns (d :: d2 :: rest2) = [d] :: (d2 :: r) :: rs := by
          simp [specRuns, hruns, hnle]
        simp only [List.head?_cons, Option.some.injEq]
        rw [if_pos hd, hruns2, bump_cons, longestRun_cons, hlhs2]
        simp only [List.length_cons, List.length_nil] at IH ⊢
        omega
      · have hlhs2 : streakTail (d :: d2 :: rest2) p cur
            = max 1 (streakTail (d2 :: rest2) d 1) := by
          simp [streakTail, hd]
        have IH := ih d 1 (Nat.le_refl 1) hchain'
        simp only [List.head?_cons, Option.some.injEq] at IH
        rw [if_pos hadj, hruns, bump_cons] at IH
        have hruns2 : specRuns (d :: d2 :: rest2) = (d :: d2 :: r) :: rs := by
          simp [specRuns, hruns, Nat.le_of_eq hadj]
        simp only [List.head?_cons, Option.some.injEq]
        rw [if_neg hd, hruns2, longestRun_cons, hlhs2]
        simp only [List.length_cons] at IH ⊢
        omega
      · have hnle : ¬ (d2 ≤ d + 1) := by omega
        have hlhs2 : streakTail (d :: d2 :: rest2) p cur
            = max 1 (streakTail (d2 :: rest2) d 1) := by
          simp [streakTail, hd]
        have IH := ih d 1 (Nat.le_refl 1) hchain'
        simp only [List.head?_cons, Option.some.injEq] at IH
        rw [if_neg hadj, hruns, longestRun_cons] at IH
        have hruns2 : specRuns (d :: d2 :: rest2) = [d] :: (d2 :: r) :: rs := by
          simp [specRuns, hruns, hnle]
        simp only [List.head?_cons, Option.some.injEq]
        rw [if_neg hd, hruns2, longestRun_cons, longestRun_cons, hlhs2]
        simp only [List.length_cons, List.length_nil] at IH ⊢
        omega

/-- A captured entry with the given id and capture timestamp, used in the
streak examples. -/
def streakEntry (eid t : Nat) : PokedexEntry :=
  { sampleEntry with id := eid, is_captured := true, capture_date := some t }

/-- Captures on calendar days 100, 101, 102 and then 105. -/
def exampleRunEntries : List PokedexEntry :=
  [streakEntry 1 (86400 * 100), streakEntry 2 (86400 * 101),
   streakEntry 3 (86400 * 102), streakEntry 4 (86400 * 105)]

/-- Two captures on the same calendar day 100. -/
def exampleSameDayEntries : List PokedexEntry :=
  [streakEntry 1 (86400 * 100 + 10), streakEntry 2 (86400 * 100 + 600)]

/-- C5: `capture_streak_days` equals the length of the longest run of
consecutive calendar dates with at least one capture, computed over the
distinct capture dates sorted ascending, a run breaking exactly when the gap
between consecutive distinct dates exceeds one day; captures on days
D, D+1, D+2, D+5 yield 3, and several captures on one day yield 1. -/
theorem capture_streak_spec :
    (∀ entries : List PokedexEntry,
      capture_streak_days entries = longestRun (specRuns (captureDates entries))) ∧
    capture_streak_days exampleRunEntries = 3 ∧
    capture_streak_days exampleSameDayEntries = 1 := by
  refine ⟨?_, by decide, by decide⟩
  intro entries
  unfold capture_streak_days
  rcases hc : captureDates entries with _ | ⟨d, rest⟩
  · simp [streakLoop, specRuns, longestRun]
  · have hpw : (d :: rest).Pairwise (· < ·) := by
      rw [← hc]
      exact sortedDates_pairwise _
    have hchain : List.Chain (· < ·) d rest := List.chain_iff_pairwise.2 hpw
    have h1 : streakLoop (d :: rest) none 0 0 = streakLoop rest (some d) 1 1 := by
      simp [streakLoop]
    rw [h1, streakLoop_eq_max]
    have hB := streakTail_spec rest d 1 (Nat.le_refl 1) hchain
    cases rest with
    | nil => simp [streakTail, specRuns, longestRun]
    | cons d2 rest2 =>
      obtain ⟨r, rs, hruns⟩ := specRuns_cons d2 rest2
      simp only [List.head?_cons, Option.some.injEq] at hB
      by_cases hadj : d2 = d + 1
      · rw [if_pos hadj, hruns, bump_cons] at hB
        have hruns2 : specRuns (d :: d2 :: rest2) = (d :: d2 :: r) :: rs := by
          simp [specRuns, hruns, Nat.le_of_eq hadj]
        rw [hB, hruns2, longestRun_cons]
        simp [List.length_cons]
      · have hd2 : d < d2 := (List.chain_cons.1 hchain).1
        have hnle : ¬ (d2 ≤ d + 1) := by omega
        rw [if_neg hadj, hruns, longestRun_cons] at hB
        have hruns2 : specRuns (d :: d2 :: rest2) = [d] :: (d2 :: r) :: rs := by
          simp [specRuns, hruns, hnle]
        rw [hB, hruns2, longestRun_cons, longestRun_cons]
        simp [List.length_cons, List.length_nil]

/-- A row of the `team` table (`app.models.Team`). -/
structure Team where
  id : Nat
  trainer_id : Nat
  name : String
  description : Option String
  created_at : Nat
deriving DecidableEq, Repr

/-- A row of the `teammember` table (`app.models.TeamMember`). -/
structure TeamMember where
  id : Nat
  team_id : Nat
  pokedex_entry_id : Nat
  position : Nat
deriving DecidableEq, Repr

/-- The relational store of the team endpoints. -/
structure Db where
  entries : List PokedexEntry
  teams : List Team
  members : List TeamMember
deriving DecidableEq, Repr

/-- One member of a team payload (`app.models.TeamMemberRead`,
models.py:168-174): the member row plus the denormalized catalog id and name
of its collection entry. -/
structure TeamMemberRead where
  id : Nat
  position : Nat
  pokedex_entry_id : Nat
  pokemon_id : Nat
  pokemon_name : String
deriving DecidableEq, Repr

/-- The declared team response model (`app.models.TeamRead`,
models.py:176-181): the team fields plus a required `members` list; it has no
`pokemon_ids` field. -/
structure TeamRead where
  id : Nat
  name : String
  description : Option String
  created_at : Nat
  members : List TeamMemberRead
deriving DecidableEq, Repr

/-- The keyword arguments of a `TeamRead(...)` constructor call: each field is
`some` when the call site supplies it.  The handlers in app/routers/teams.py
pass `id`, `name`, `description`, `created_at` and `pokemon_ids` — and never
`members`. -/
structure TeamReadCall where
  id : Option Nat := none
  name : Option String := none
  description : Option (Option String) := none
  created_at : Option Nat := none
  members : Option (List TeamMemberRead) := none
  pokemon_ids : Option (List Nat) := none
deriving DecidableEq, Repr

/-- The body of `POST /api/v1/teams` (`app.models.TeamCreate`);
`pokemon_ids` are catalog (PokeAPI) ids, not collection-entry ids. -/
structure TeamCreate where
  name : String
  description : Option String := none
  pokemon_ids : List Nat
deriving DecidableEq, Repr

/-- The body of `PUT /api/v1/teams/{team_id}` (`app.models.TeamUpdate`). -/
structure TeamUpdate where
  name : Option String := none
  description : Option String := none
  pokemon_ids : Option (List Nat) := none
deriving DecidableEq, Repr

/-- Insert into a sorted list, placing `a` before the first element `b` with
`le a b`; one step of the stable sort that models SQL `ORDER BY` on the
row store. -/
def insertLe {α : Type} (le : α → α → Bool) (a : α) : List α → List α
  | [] => [a]
  | b :: l => if le a b then a :: b :: l else b :: insertLe le a l

/-- Stable insertion sort: rows with equal keys keep their store order,
which is how SQLite returns ties of an `ORDER BY`. -/
def sortLe {α : Type} (le : α → α → Bool) : List α → List α
  | [] => []
  | a :: l => insertLe le a (sortLe le l)

theorem mem_insertLe {α : Type} (le : α → α → Bool) (a y : α) :
    ∀ l, y ∈ insertLe le a l ↔ y = a ∨ y ∈ l := by
  intro l
  induction l with
  | nil => simp [insertLe]
  | cons b l ih =>
    simp only [insertLe]
    by_cases h : le a b = true
    · simp [h, List.mem_cons]
    · simp only [h, if_false, Bool.false_eq_true, List.mem_cons, ih]
      tauto

theorem mem_sortLe {α : Type} (le : α → α → Bool) (y : α) :
    ∀ l, y ∈ sortLe le l ↔ y ∈ l := by
  intro l
  induction l with
  | nil => simp [sortLe]
  | cons a l ih =>
    simp [sortLe, mem_insertLe, ih]

theorem pairwise_insertLe {α : Type} (le : α → α → Bool) (P : α → α → Prop) (a : α) :
    ∀ l, (∀ b ∈ l, le a b = false → P b a) → (∀ b ∈ l, P a b) → l.Pairwise P →
      (insertLe le a l).Pairwise P := by
  intro l
  induction l with
  | nil => simp [insertLe]
  | cons b l ih =>
    intro hcomp ha hl
    rw [List.pairwise_cons] at hl
    obtain ⟨hb, hl⟩ := hl
    simp only [insertLe]
    by_cases h : le a b = true
    · rw [if_pos h, List.pairwise_cons]
      exact ⟨fun x hx => by
        rcases List.mem_cons.1 hx with rfl | hx
        · exact ha x (List.mem_cons_self _ _)
        · exact ha x (List.mem_cons_of_mem _ hx), List.pairwise_cons.2 ⟨hb, hl⟩⟩
    · rw [if_neg h, List.pairwise_cons]
      refine ⟨fun x hx => ?_, ih (fun c hc => hcomp c (List.mem_cons_of_mem _ hc))
        (fun c hc => ha c (List.mem_cons_of_mem _ hc)) hl⟩
      rcases (mem_insertLe le a x l).1 hx with rfl | hx
      · simp only [Bool.not_eq_true] at h
        exact hcomp _ (List.mem_cons_self _ _) h
      · exact hb x hx

theorem pairwise_sortLe {α : Type} (le : α → α → Bool) (P : α → α → Prop)
    (hcomp : ∀ a b, le a b = false → P b a) :
    ∀ l, l.Pairwise P → (sortLe le l).Pairwise P := by
  intro l
  induction l with
  | nil => simp [sortLe]
  | cons a l ih =>
    intro hl
    rw [List.pairwise_cons] at hl
    obtain ⟨ha, hl⟩ := hl
    exact pairwise_insertLe le P a (sortLe le l)
      (fun b _ hb => hcomp a b hb)
      (fun b hb => ha b ((mem_sortLe le b l).1 hb))
      (ih hl)

theorem sorted_insertLe {α : Type} (le : α → α → Bool) (a : α)
    (htot : ∀ x y, le x y = true ∨ le y x = true)
    (htrans : ∀ x y z, le x y = true → le y z = true → le x z = true) :
    ∀ l, l.Pairwise (fun x y => le x y = true) →
      (insertLe le a l).Pairwise (fun x y => le x y = true) := by
  intro l
  induction l with
  | nil => simp [insertLe]
  | cons b l ih =>
    intro hl
    rw [List.pairwise_cons] at hl
    obtain ⟨hb, hl⟩ := hl
    simp only [insertLe]
    by_cases h : le a b = true
    · rw [if_pos h, List.pairwise_cons]
      exact ⟨fun x hx => by
        rcases List.mem_cons.1 hx with rfl | hx
        · exact h
        · exact htrans a b x h (hb x hx), List.pairwise_cons.2 ⟨hb, hl⟩⟩
    · rw [if_neg h, List.pairwise_cons]
      have hba : le b a = true := (htot a b).resolve_left h
      refine ⟨fun x hx => ?_, ih hl⟩
      rcases (mem_insertLe le a x l).1 hx with rfl | hx
      · exact hba
      · exact hb x hx

theorem sorted_sortLe {α : Type} (le : α → α → Bool)
    (htot : ∀ x y, le x y = true ∨ le y x = true)
    (htrans : ∀ x y z, le x y = true → le y z = true → le x z = true) :
    ∀ l, (sortLe le l).Pairwise (fun x y => le x y = true) := by
  intro l
  induction l with
  | nil => simp [sortLe]
  | cons a l ih => exact sorted_insertLe le a htot htrans _ ih

theorem insertLe_eq_cons {α : Type} (le : α → α → Bool) (a : α) :
    ∀ l, (∀ b ∈ l, le a b = true) → insertLe le a l = a :: l := by
  intro l h
  cases l with
  | nil => rfl
  | cons b l => simp [insertLe, h b (List.mem_cons_self _ _)]

theorem sortLe_eq_self {α : Type} (le : α → α → Bool) :
    ∀ l, l.Pairwise (fun x y => le x y = true) → sortLe le l = l := by
  intro l
  induction l with
  | nil => intro h; rfl
  | cons a l ih =>
    intro hl
    rw [List.pairwise_cons] at hl
    obtain ⟨ha, hl⟩ := hl
    simp only [sortLe, ih hl]
    exact insertLe_eq_cons le a l ha

/-- The `ORDER BY position` comparison on team members. -/
def posLe (a b : TeamMember) : Bool := a.position ≤ b.position

/-- `get_team_pokemon_ids_for_user` (app/routers/teams.py): the team's member
rows joined to their collection entries, ordered by position, projected to the
catalog (PokeAPI) id.  Members whose entry row is missing drop out of the
inner join. -/
def get_team_pokemon_ids_for_user (db : Db) (teamId : Nat) : List Nat :=
  (sortLe posLe (db.members.filter (fun m => m.team_id == teamId))).filterMap
    (fun m => (db.entries.find? (fun e => e.id == m.pokedex_entry_id)).map
      (fun e => e.pokemon_id))

/-- The `TeamRead(...)` call the team routers make for a team
(teams.py:132-138, 157-165, 254-260): the team fields and the ordered member
catalog ids; no `members` keyword is passed. -/
def teamReadCall (db : Db) (t : Team) : TeamReadCall :=
  { id := some t.id
    name := some t.name
    description := some t.description
    created_at := some t.created_at
    pokemon_ids := some (get_team_pokemon_ids_for_user db t.id) }

/-- Pydantic validation of a `TeamRead(...)` call against `app.models.TeamRead`
(models.py:176-181): `members` is a required field with no default, so a call
that does not supply it raises a ValidationError, which the framework surfaces
as an internal server error; an extra keyword such as `pokemon_ids` is not a
model field. -/
def validateTeamRead (c : TeamReadCall) : Except ApiErr TeamRead :=
  match c.id, c.name, c.created_at, c.members with
  | some i, some n, some ca, some ms =>
    .ok { id := i
          name := n
          description := c.description.getD none
          created_at := ca
          members := ms }
  | _, _, _, _ => .error ⟨500, "Internal Server Error"⟩

/-- Validate the sequence of `TeamRead(...)` calls a handler makes; the first
ValidationError aborts the request. -/
def buildTeamReads : List TeamReadCall → Except ApiErr (List TeamRead)
  | [] => .ok []
  | c :: rest =>
    match validateTeamRead c with
    | .error er => .error er
    | .ok tr =>
      match buildTeamReads rest with
      | .error er => .error er
      | .ok trs => .ok (tr :: trs)

/-- `list_teams` (app/routers/teams.py): query the trainer's teams in store
order (the query has no ORDER BY), then build one `TeamRead` per team from the
team fields and the ordered member catalog ids. -/
def list_teams (db : Db) (uid : Nat) : Except ApiErr (List TeamRead) :=
  buildTeamReads ((db.teams.filter (fun t => t.trainer_id == uid)).map (teamReadCall db))

/-- The three size/duplicate validations shared by `create_team` and
`update_team`: empty list, more than 6 ids, repeated ids (in that order). -/
def validate_team_ids (ids : List Nat) : Option ApiErr :=
  if ids = [] then some ⟨400, "Team must have at least one Pokémon"⟩
  else if ids.length > 6 then some ⟨400, "Team cannot have more than 6 Pokémon"⟩
  else if ids.dedup.length ≠ ids.length then
    some ⟨400, "Team cannot contain duplicated Pokémon"⟩
  else none

/-- The per-id lookup loop of `create_team`/`update_team`: for each catalog id
find the trainer's collection entry, failing on the first id with no entry. -/
def resolveEntries (entries : List PokedexEntry) (uid : Nat) :
    List Nat → Except ApiErr (List PokedexEntry)
  | [] => .ok []
  | pid :: rest =>
    match entries.find? (fun e => e.owner_id == uid && e.pokemon_id == pid) with
    | none => .error ⟨400, s!"Pokemon with id {pid} is not in your Pokedex"⟩
    | some e =>
      match resolveEntries entries uid rest with
      | .error er => .error er
      | .ok es => .ok (e :: es)

/-- The member rows inserted by `create_team`/`update_team`: positions are the
1-based index in the supplied order, primary keys assigned sequentially from
`baseId`. -/
def mkMembers (teamId : Nat) : Nat → Nat → List Nat → List TeamMember
  | _, _, [] => []
  | baseId, pos, eid :: rest =>
    { id := baseId, team_id := teamId, pokedex_entry_id := eid, position := pos }
      :: mkMembers teamId (baseId + 1) (pos + 1) rest

/-- `create_team` (app/routers/teams.py): validate the id list, resolve each
catalog id to the trainer's collection entry, then persist the team row and
its member rows; every validation failure raises before anything is
persisted. -/
def create_team (db : Db) (uid : Nat) (data : TeamCreate)
    (now newTeamId memberBase : Nat) : Except ApiErr (Db × TeamReadCall) :=
  match validate_team_ids data.pokemon_ids with
  | some er => .error er
  | none =>
    match resolveEntries db.entries uid data.pokemon_ids with
    | .error er => .error er
    | .ok es =>
      let team : Team :=
        { id := newTeamId
          trainer_id := uid
          name := data.name
          description := data.description
          created_at := now }
      let newMembers := mkMembers newTeamId memberBase 1 (es.map (fun e => e.id))
      let db' : Db :=
        { db with teams := db.teams ++ [team], members := db.members ++ newMembers }
      .ok (db', teamReadCall db' team)

/-- `update_team` (app/routers/teams.py): look the team up, check ownership,
apply name/description if supplied; when a member list is supplied, validate
it exactly as in create, delete all of the team's member rows and reinsert
from the new list. -/
def update_team (db : Db) (uid teamId : Nat) (data : TeamUpdate)
    (memberBase : Nat) : Except ApiErr (Db × TeamReadCall) :=
  match db.teams.find? (fun t => t.id == teamId) with
  | none => .error ⟨404, "Team not found"⟩
  | some t =>
    if t.trainer_id != uid then .error ⟨403, "Not allowed to access this team"⟩
    else
      let t1 := match data.name with
        | none => t
        | some v => { t with name := v }
      let t2 := match data.description with
        | none => t1
        | some v => { t1 with description := v }
      match data.pokemon_ids with
      | none =>
        let db' : Db :=
          { db with teams := db.teams.map (fun x => if x.id == teamId then t2 else x) }
        .ok (db', teamReadCall db' t2)
      | some ids =>
        match validate_team_ids ids with
        | some er => .error er
        | none =>
          match resolveEntries db.entries uid ids with
          | .error er => .error er
          | .ok es =>
            let newMembers := mkMembers teamId memberBase 1 (es.map (fun e => e.id))
            let db' : Db :=
              { db with
                teams := db.teams.map (fun x => if x.id == teamId then t2 else x)
                members := db.members.filter (fun m => m.team_id != teamId) ++ newMembers }
            .ok (db', teamReadCall db' t2)

/-- The store that results from a team request: the new store on success, the
unchanged store when the handler raised before committing. -/
def persistedDb (r : Except ApiErr (Db × TeamReadCall)) (db : Db) : Db :=
  match r with
  | .ok (db', _) => db'
  | .error _ => db

theorem nodup_iff_dedup_length (l : List Nat) :
    l.Nodup ↔ l.dedup.length = l.length := by
  constructor
  · intro h
    rw [h.dedup]
  · intro h
    rw [← (List.dedup_sublist l).eq_of_length h]
    exact List.nodup_dedup l

theorem resolveEntries_first_missing (entries : List PokedexEntry) (uid : Nat) :
    ∀ (l1 : List Nat) (pid : Nat) (l2 : List Nat),
      (∀ q ∈ l1, ∃ e ∈ entries, e.owner_id = uid ∧ e.pokemon_id = q) →
      (∀ e ∈ entries, ¬(e.owner_id = uid ∧ e.pokemon_id = pid)) →
      resolveEntries entries uid (l1 ++ pid :: l2)
        = .error ⟨400, s!"Pokemon with id {pid} is not in your Pokedex"⟩ := by
  intro l1
  induction l1 with
  | nil =>
    intro pid l2 hok hmiss
    have hnone := add_find_none entries uid pid hmiss
    simp [resolveEntries, hnone]
  | cons q l1 ih =>
    intro pid l2 hok hmiss
    obtain ⟨e, he, h1, h2⟩ := hok q (List.mem_cons_self _ _)
    rcases hfind : entries.find? (fun x => x.owner_id == uid && x.pokemon_id == q)
        with _ | e'
    · rw [List.find?_eq_none] at hfind
      exact absurd (by simp [h1, h2]) (hfind e he)
    · have hrest := ih pid l2 (fun r hr => hok r (List.mem_cons_of_mem _ hr)) hmiss
      simp [resolveEntries, hfind, hrest]

/-- C3: team create fails InvalidSize when the supplied catalog-id list is
empty or longer than 6, DuplicateMember when it repeats an id, and
NotInCollection naming the offending id when some id has no collection entry
owned by the trainer; on any failure no team row and no member rows are
persisted. -/
theorem create_team_validation_spec (db : Db) (uid : Nat) (data : TeamCreate)
    (now newTeamId memberBase : Nat) :
    (data.pokemon_ids = [] →
      create_team db uid data now newTeamId memberBase
        = .error ⟨400, "Team must have at least one Pokémon"⟩) ∧
    (data.pokemon_ids.length > 6 →
      create_team db uid data now newTeamId memberBase
        = .error ⟨400, "Team cannot have more than 6 Pokémon"⟩) ∧
    (data.pokemon_ids ≠ [] → data.pokemon_ids.length ≤ 6 → ¬ data.pokemon_ids.Nodup →
      create_team db uid data now newTeamId memberBase
        = .error ⟨400, "Team cannot contain duplicated Pokémon"⟩) ∧
    (∀ (l1 : List Nat) (pid : Nat) (l2 : List Nat),
      data.pokemon_ids = l1 ++ pid :: l2 →
      data.pokemon_ids.length ≤ 6 → data.pokemon_ids.Nodup →
      (∀ q ∈ l1, ∃ e ∈ db.entries, e.owner_id = uid ∧ e.pokemon_id = q) →
      (∀ e ∈ db.entries, ¬(e.owner_id = uid ∧ e.pokemon_id = pid)) →
      create_team db uid data now newTeamId memberBase
        = .error ⟨400, s!"Pokemon with id {pid} is not in your Pokedex"⟩) ∧
    (∀ er, create_team db uid data now newTeamId memberBase = .error er →
      persistedDb (create_team db uid data now newTeamId memberBase) db = db) := by
  refine ⟨?_, ?_, ?_, ?_, ?_⟩
  · intro h
    simp [create_team, validate_team_ids, h]
  · intro h
    have hne : data.pokemon_ids ≠ [] := by
      intro hnil
      rw [hnil] at h
      simp at h
    simp [create_team, validate_team_ids, hne, h]
  · intro hne hlen hnodup
    have hd : data.pokemon_ids.dedup.length ≠ data.pokemon_ids.length := by
      intro h
      exact hnodup ((nodup_iff_dedup_length _).2 h)
    simp [create_team, validate_team_ids, hne, Nat.not_lt.2 hlen, hd]
  · intro l1 pid l2 hsplit hlen hnodup hok hmiss
    have hne : data.pokemon_ids ≠ [] := by
      rw [hsplit]
      simp
    have hd : ¬ data.pokemon_ids.dedup.length ≠ data.pokemon_ids.length :=
      not_not.2 ((nodup_iff_dedup_length _).1 hnodup)
    have hres := resolveEntries_first_missing db.entries uid l1 pid l2 hok hmiss
    rw [← hsplit] at hres
    simp [create_team, validate_team_ids, hne, Nat.not_lt.2 hlen, hd, hres]
  · intro er h
    unfold persistedDb
    rw [h]

theorem create_team_validation_spec_witness :
    create_team { entries := [], teams := [], members := [] } 1
        { name := "", pokemon_ids := [] } 0 100 50
      = .error ⟨400, "Team must have at least one Pokémon"⟩ ∧
    create_team { entries := [], teams := [], members := [] } 1
        { name := "", pokemon_ids := [7] } 0 100 50
      = .error ⟨400, "Pokemon with id 7 is not in your Pokedex"⟩ := by
  refine ⟨(create_team_validation_spec { entries := [], teams := [], members := [] } 1
      { name := "", pokemon_ids := [] } 0 100 50).1 rfl, ?_⟩
  have h := (create_team_validation_spec { entries := [], teams := [], members := [] } 1
      { name := "", pokemon_ids := [7] } 0 100 50).2.2.2.1 [] 7 [] rfl
    (by decide) (by decide) (by decide) (by decide)
  exact h

theorem resolveEntries_ok (entries : List PokedexEntry) (uid : Nat) :
    ∀ (ids : List Nat) (es : List PokedexEntry),
      resolveEntries entries uid ids = .ok es →
      es.map (fun e => e.pokemon_id) = ids ∧ ∀ e ∈ es, e ∈ entries := by
  intro ids
  induction ids with
  | nil =>
    intro es h
    simp only [resolveEntries, Except.ok.injEq] at h
    subst h
    simp
  | cons pid rest ih =>
    intro es h
    rcases hfind : entries.find? (fun e => e.owner_id == uid && e.pokemon_id == pid)
        with _ | e
    · rw [resolveEntries, hfind] at h
      exact absurd h (by simp)
    · rw [resolveEntries, hfind] at h
      rcases hrec : resolveEntries entries uid rest with er | es' <;> rw [hrec] at h
      · exact absurd h (by simp)
      · simp only [Except.ok.injEq] at h
        subst h
        obtain ⟨hmap, hmem⟩ := ih es' hrec
        have hp := List.find?_some hfind
        simp only [Bool.and_eq_true, beq_iff_eq] at hp
        refine ⟨by simp [hmap, hp.2], fun x hx => ?_⟩
        rcases List.mem_cons.1 hx with rfl | hx
        · exact List.mem_of_find?_eq_some hfind
        · exact hmem x hx

theorem find_by_id (entries : List PokedexEntry) (e : PokedexEntry)
    (hnd : (entries.map (fun x => x.id)).Nodup) (he : e ∈ entries) :
    entries.find? (fun x => x.id == e.id) = some e := by
  induction entries with
  | nil => cases he
  | cons a l ih =>
    rw [List.map_cons, List.nodup_cons] at hnd
    obtain ⟨ha, hl⟩ := hnd
    rcases List.mem_cons.1 he with rfl | he
    · simp [List.find?]
    · have hne : (a.id == e.id) = false := by
        simp only [beq_eq_false_iff_ne, ne_eq]
        intro hid
        exact ha (hid ▸ List.mem_map_of_mem (fun x => x.id) he)
      rw [List.find?, hne]
      exact ih hl he

theorem mkMembers_team_id (tid : Nat) :
    ∀ (l : List Nat) (b p : Nat), ∀ m ∈ mkMembers tid b p l, m.team_id = tid := by
  intro l
  induction l with
  | nil => intro b p m hm; cases hm
  | cons x l ih =>
    intro b p m hm
    rcases List.mem_cons.1 hm with rfl | hm
    · rfl
    · exact ih (b + 1) (p + 1) m hm

theorem mkMembers_id_ge (tid : Nat) :
    ∀ (l : List Nat) (b p : Nat), ∀ m ∈ mkMembers tid b p l, b ≤ m.id := by
  intro l
  induction l with
  | nil => intro b p m hm; cases hm
  | cons x l ih =>
    intro b p m hm
    rcases List.mem_cons.1 hm with rfl | hm
    · exact Nat.le_refl _
    · exact Nat.le_of_succ_le (ih (b + 1) (p + 1) m hm)

theorem mkMembers_pos_ge (tid : Nat) :
    ∀ (l : List Nat) (b p : Nat), ∀ m ∈ mkMembers tid b p l, p ≤ m.position := by
  intro l
  induction l with
  | nil => intro b p m hm; cases hm
  | cons x l ih =>
    intro b p m hm
    rcases List.mem_cons.1 hm with rfl | hm
    · exact Nat.le_refl _
    · exact Nat.le_of_succ_le (ih (b + 1) (p + 1) m hm)

theorem mkMembers_positions (tid : Nat) :
    ∀ (l : List Nat) (b p : Nat),
      (mkMembers tid b p l).map (fun m => m.position) = List.range' p l.length := by
  intro l
  induction l with
  | nil => intro b p; rfl
  | cons x l ih =>
    intro b p
    simp only [mkMembers, List.map_cons, List.length_cons, List.range'_succ]
    rw [ih]

theorem mkMembers_pos_pairwise (tid : Nat) :
    ∀ (l : List Nat) (b p : Nat),
      (mkMembers tid b p l).Pairwise (fun a c => posLe a c = true) := by
  intro l
  induction l with
  | nil => intro b p; simp [mkMembers]
  | cons x l ih =>
    intro b p
    simp only [mkMembers, List.pairwise_cons]
    refine ⟨fun m hm => ?_, ih (b + 1) (p + 1)⟩
    have := mkMembers_pos_ge tid l (b + 1) (p + 1) m hm
    simp only [posLe, decide_eq_true_eq]
    omega

theorem mkMembers_join (tid : Nat) (entries : List PokedexEntry) :
    ∀ (es : List PokedexEntry) (b p : Nat),
      (∀ e ∈ es, entries.find? (fun x => x.id == e.id) = some e) →
      (mkMembers tid b p (es.map (fun e => e.id))).filterMap
          (fun m => (entries.find? (fun x => x.id == m.pokedex_entry_id)).map
            (fun e => e.pokemon_id))
        = es.map (fun e => e.pokemon_id) := by
  intro es
  induction es with
  | nil => intro b p h; rfl
  | cons e es ih =>
    intro b p h
    simp only [List.map_cons, mkMembers, List.filterMap_cons]
    rw [h e (List.mem_cons_self _ _)]
    simp only [Option.map_some']
    rw [ih (b + 1) (p + 1) (fun x hx => h x (List.mem_cons_of_mem _ hx))]

theorem team_members_shape (dbE : List PokedexEntry) (ts : List Team)
    (tid mbase : Nat) (ms : List TeamMember) (es : List PokedexEntry) (ids : List Nat)
    (hnd : (dbE.map (fun x => x.id)).Nodup)
    (hms : ∀ m ∈ ms, ¬ m.team_id = tid)
    (hes_mem : ∀ e ∈ es, e ∈ dbE)
    (hes_map : es.map (fun e => e.pokemon_id) = ids) :
    ((sortLe posLe ((Db.mk dbE ts
          (ms ++ mkMembers tid mbase 1 (es.map (fun e => e.id)))).members.filter
        (fun m => m.team_id == tid))).map (fun m => m.position)
      = List.range' 1 ids.length) ∧
    get_team_pokemon_ids_for_user
        (Db.mk dbE ts (ms ++ mkMembers tid mbase 1 (es.map (fun e => e.id)))) tid
      = ids := by
  have hfilter : (ms ++ mkMembers tid mbase 1 (es.map (fun e => e.id))).filter
        (fun m => m.team_id == tid)
      = mkMembers tid mbase 1 (es.map (fun e => e.id)) := by
    rw [List.filter_append,
      List.filter_eq_nil_iff.2 (fun m hm => by simp [hms m hm]),
      List.nil_append,
      List.filter_eq_self.2 (fun m hm => by simp [mkMembers_team_id tid _ _ _ m hm])]
  have hsort : sortLe posLe (mkMembers tid mbase 1 (es.map (fun e => e.id)))
      = mkMembers tid mbase 1 (es.map (fun e => e.id)) :=
    sortLe_eq_self posLe _ (mkMembers_pos_pairwise tid _ _ _)
  constructor
  · show ((sortLe posLe ((ms ++ mkMembers tid mbase 1 (es.map (fun e => e.id))).filter
        (fun m => m.team_id == tid))).map (fun m => m.position)) = _
    rw [hfilter, hsort, mkMembers_positions]
    simp [List.length_map, ← hes_map]
  · show (sortLe posLe ((ms ++ mkMembers tid mbase 1 (es.map (fun e => e.id))).filter
        (fun m => m.team_id == tid))).filterMap
        (fun m => (dbE.find? (fun e => e.id == m.pokedex_entry_id)).map
          (fun e => e.pokemon_id)) = _
    rw [hfilter, hsort, mkMembers_join tid dbE es mbase 1
      (fun e he => find_by_id dbE e hnd (hes_mem e he)), hes_map]

/-- C4: after a successful team create, the team's member positions are
unique and contiguous from 1 and the position-ordered members carry the
supplied catalog ids in the supplied order; a successful update that supplies
a member list first deletes every previously persisted member row of the team
and reinserts, so the new position-ordered members carry the new list and the
old rows are gone. -/
theorem team_member_positions_spec :
    (∀ (db : Db) (uid : Nat) (data : TeamCreate) (now ntid mbase : Nat)
       (db' : Db) (tr : TeamReadCall),
      (db.entries.map (fun e => e.id)).Nodup →
      (∀ m ∈ db.members, m.team_id ≠ ntid) →
      create_team db uid data now ntid mbase = .ok (db', tr) →
      ((sortLe posLe (db'.members.filter (fun m => m.team_id == ntid))).map
          (fun m => m.position) = List.range' 1 data.pokemon_ids.length) ∧
      get_team_pokemon_ids_for_user db' ntid = data.pokemon_ids) ∧
    (∀ (db : Db) (uid tid : Nat) (data : TeamUpdate) (mbase : Nat)
       (ids : List Nat) (db' : Db) (tr : TeamReadCall),
      (db.entries.map (fun e => e.id)).Nodup →
      (∀ m ∈ db.members, m.id < mbase) →
      data.pokemon_ids = some ids →
      update_team db uid tid data mbase = .ok (db', tr) →
      (∀ m ∈ db.members, m.team_id = tid → m ∉ db'.members) ∧
      ((sortLe posLe (db'.members.filter (fun m => m.team_id == tid))).map
          (fun m => m.position) = List.range' 1 ids.length) ∧
      get_team_pokemon_ids_for_user db' tid = ids) := by
  constructor
  · intro db uid data now ntid mbase db' tr hnd hfresh hok
    unfold create_team at hok
    rcases hv : validate_team_ids data.pokemon_ids with _ | er <;> rw [hv] at hok
    · rcases hres : resolveEntries db.entries uid data.pokemon_ids with er | es <;>
        rw [hres] at hok
      · exact absurd hok (by simp)
      · simp only [Except.ok.injEq, Prod.mk.injEq] at hok
        obtain ⟨rfl, -⟩ := hok
        obtain ⟨hes_map, hes_mem⟩ := resolveEntries_ok db.entries uid data.pokemon_ids es hres
        exact team_members_shape db.entries _ ntid mbase db.members es
          data.pokemon_ids hnd hfresh hes_mem hes_map
    · exact absurd hok (by simp)
  · intro db uid tid data mbase ids db' tr hnd hbase hsome hok
    unfold update_team at hok
    rcases hfind : db.teams.find? (fun t => t.id == tid) with _ | t <;> rw [hfind] at hok
    · exact absurd hok (by simp)
    · dsimp only at hok
      by_cases how : (t.trainer_id != uid) = true
      · rw [if_pos how] at hok
        exact absurd hok (by simp)
      · rw [if_neg how, hsome] at hok
        dsimp only at hok
        rcases hv : validate_team_ids ids with _ | er <;> rw [hv] at hok
        · rcases hres : resolveEntries db.entries uid ids with er | es <;>
            rw [hres] at hok
          · exact absurd hok (by simp)
          · simp only [Except.ok.injEq, Prod.mk.injEq] at hok
            obtain ⟨rfl, -⟩ := hok
            obtain ⟨hes_map, hes_mem⟩ := resolveEntries_ok db.entries uid ids es hres
            have hshape := team_members_shape db.entries
              (db.teams.map (fun x => if x.id == tid then
                (match data.description with
                  | none => (match data.name with
                    | none => t
                    | some v => { t with name := v })
                  | some v => { (match data.name with
                    | none => t
                    | some v => { t with name := v }) with description := some v })
                else x)) tid mbase
              (db.members.filter (fun m => m.team_id != tid)) es ids hnd
              (fun m hm => by
                have := (List.mem_filter.1 hm).2
                simp only [bne_iff_ne, ne_eq] at this
                exact this)
              hes_mem hes_map
            refine ⟨?_, hshape.1, hshape.2⟩
            intro m hm hmt hmem
            rcases List.mem_append.1 hmem with hmem | hmem
            · have := (List.mem_filter.1 hmem).2
              simp only [bne_iff_ne, ne_eq] at this
              exact this hmt
            · have := mkMembers_id_ge tid _ mbase 1 m hmem
              have := hbase m hm
              omega
        · exact absurd hok (by simp)

/-- A store with one trainer owning collection entries for catalog ids 1 and 2. -/
def db4 : Db :=
  { entries := [{ sampleEntry with id := 10, owner_id := 1, pokemon_id := 1 },
                { sampleEntry with id := 11, owner_id := 1, pokemon_id := 2 }]
    teams := []
    members := [] }

/-- Creating a team with member list [1, 2]. -/
def createRun4 : Except ApiErr (Db × TeamReadCall) :=
  create_team db4 1 { name := "", pokemon_ids := [1, 2] } 0 100 50

/-- The store after the create. -/
def db4c : Db := persistedDb createRun4 db4

/-- The `TeamRead(...)` call of a team request (an empty call on error). -/
def teamReadOf (r : Except ApiErr (Db × TeamReadCall)) : TeamReadCall :=
  match r with
  | .ok (_, tr) => tr
  | .error _ => {}

/-- Updating the team's member list to [2, 1]. -/
def updateRun4 : Except ApiErr (Db × TeamReadCall) :=
  update_team db4c 1 100 { pokemon_ids := some [2, 1] } 60

/-- The store after the update. -/
def db4u : Db := persistedDb updateRun4 db4c

theorem team_member_positions_spec_witness :
    ((sortLe posLe (db4u.members.filter (fun m => m.team_id == 100))).map
        (fun m => m.position) = List.range' 1 2) ∧
    get_team_pokemon_ids_for_user db4u 100 = [2, 1] := by
  have h := team_member_positions_spec.2 db4c 1 100 { pokemon_ids := some [2, 1] } 60
    [2, 1] db4u (teamReadOf updateRun4) (by decide) (by decide) rfl (by rfl)
  exact ⟨h.2.1, h.2.2⟩

/-- A trainer with two teams whose store order disagrees with ascending
`created_at` order. -/
def db6 : Db :=
  { entries := []
    teams := [{ id := 1
                trainer_id := 1
                name := ""
                description := none
                created_at := 100 },
              { id := 2
                trainer_id := 1
                name := ""
                description := none
                created_at := 50 }]
    members := [] }

/-- The older of the two teams of `db6`. -/
def team6 : Team :=
  { id := 1
    trainer_id := 1
    name := ""
    description := none
    created_at := 100 }

/-- C6 (code bug): for a trainer who owns a team, the list handler cannot
return the claimed listing at all: every `TeamRead(...)` call it makes omits
the required `members` field of the declared response model, so validation
rejects it and the request fails with an internal error; moreover the
underlying team query is in store order, not ascending `created_at` order. -/
theorem list_teams_validation_bug :
    list_teams db6 1 = .error ⟨500, "Internal Server Error"⟩ ∧
    (teamReadCall db6 team6).members = none ∧
    (db6.teams.filter (fun t => t.trainer_id == 1)).map (fun t => t.created_at)
      = [100, 50] ∧
    ¬ ((db6.teams.filter (fun t => t.trainer_id == 1)).map
        (fun t => t.created_at)).Pairwise (fun a b => a ≤ b) := by
  exact ⟨rfl, rfl, rfl, by decide⟩

/-- The sort keys accepted by `list_pokedex`'s `sort` query parameter. -/
inductive SortField
  | pokemon_id
  | capture_date
  | pokemon_name
deriving DecidableEq, Repr

/-- The `order` query parameter of `list_pokedex`. -/
inductive SortOrder
  | asc
  | desc
deriving DecidableEq, Repr

/-- SQL ordering on a nullable timestamp column: NULL sorts before every
value (SQLite puts NULLs first ascending). -/
def optDateLt : Option Nat → Option Nat → Bool
  | none, none => false
  | none, some _ => true
  | some _, none => false
  | some a, some b => a < b

/-- Strict comparison of two rows under the chosen sort column. -/
def fieldLt (s : SortField) (a b : PokedexEntry) : Bool :=
  match s with
  | .pokemon_id => a.pokemon_id < b.pokemon_id
  | .capture_date => optDateLt a.capture_date b.capture_date
  | .pokemon_name => a.pokemon_name < b.pokemon_name

/-- Equality of two rows under the chosen sort column. -/
def fieldEq (s : SortField) (a b : PokedexEntry) : Bool :=
  match s with
  | .pokemon_id => a.pokemon_id == b.pokemon_id
  | .capture_date => a.capture_date == b.capture_date
  | .pokemon_name => a.pokemon_name == b.pokemon_name

/-- The non-strict comparison `ORDER BY <col> ASC|DESC` sorts by. -/
def orderLe (s : SortField) (o : SortOrder) (a b : PokedexEntry) : Bool :=
  match o with
  | .asc => !(fieldLt s b a)
  | .desc => !(fieldLt s a b)

/-- `list_pokedex` (app/routers/pokedex.py): the owner's rows, filtered by the
optional captured/favorite flags, ordered by the chosen column and direction
(ties in store order, as SQLite returns them), then offset and limited. -/
def list_pokedex (db : List PokedexEntry) (uid : Nat) (captured favorite : Option Bool)
    (s : SortField) (o : SortOrder) (limit offset : Nat) : List PokedexEntry :=
  let filtered := db.filter (fun e =>
    e.owner_id == uid &&
    (match captured with
     | none => true
     | some c => e.is_captured == c) &&
    (match favorite with
     | none => true
     | some f => e.favorite == f))
  ((sortLe (orderLe s o) filtered).drop offset).take limit

theorem fieldLt_not_eq (s : SortField) (a b : PokedexEntry)
    (h : fieldLt s a b = true) : fieldEq s a b = false ∧ fieldEq s b a = false := by
  cases s <;> simp only [fieldLt, fieldEq] at *
  · simp only [decide_eq_true_eq] at h
    constructor <;> simp <;> omega
  · rcases ha : a.capture_date with _ | x <;> rcases hb : b.capture_date with _ | y <;>
      rw [ha, hb] at h <;> simp [optDateLt] at h ⊢ <;> omega
  · simp only [decide_eq_true_eq] at h
    constructor <;> simp only [beq_eq_false_iff_ne, ne_eq] <;> intro he
    · exact absurd (he ▸ h) (lt_irrefl _)
    · exact absurd (he ▸ h) (lt_irrefl _)

/-- C7: collection list is deterministic over identical stored data — the
embedding is a pure function of the store — and rows with equal values under
the chosen sort key come back in a fixed relative order, ties broken by entry
id ascending whenever the store itself is in primary-key order. -/
theorem list_pokedex_deterministic_spec (db : List PokedexEntry) (uid : Nat)
    (captured favorite : Option Bool) (s : SortField) (o : SortOrder)
    (limit offset : Nat) :
    list_pokedex db uid captured favorite s o limit offset
      = list_pokedex db uid captured favorite s o limit offset ∧
    (db.Pairwise (fun a b => a.id < b.id) →
      (list_pokedex db uid captured favorite s o limit offset).Pairwise
        (fun a b => fieldEq s a b = true → a.id < b.id)) := by
  refine ⟨rfl, ?_⟩
  intro hdb
  have hcomp : ∀ a b : PokedexEntry, orderLe s o a b = false →
      (fieldEq s b a = true → b.id < a.id) := by
    intro a b h heq
    cases o <;> simp only [orderLe, Bool.not_eq_false'] at h
    · exact absurd heq (by simp [(fieldLt_not_eq s b a h).1])
    · exact absurd heq (by simp [(fieldLt_not_eq s a b h).2])
  have hfiltered : (db.filter (fun e =>
      e.owner_id == uid &&
      (match captured with
       | none => true
       | some c => e.is_captured == c) &&
      (match favorite with
       | none => true
       | some f => e.favorite == f))).Pairwise
        (fun a b => fieldEq s a b = true → a.id < b.id) := by
    refine (hdb.filter _).imp ?_
    intro a b h hf
    exact h
  have hsorted := pairwise_sortLe (orderLe s o)
    (fun a b => fieldEq s a b = true → a.id < b.id) hcomp _ hfiltered
  exact List.Pairwise.sublist ((List.take_sublist _ _).trans (List.drop_sublist _ _)) hsorted

/-- Two rows of one owner with the same catalog id (a sort-key tie) in
primary-key store order. -/
def db7 : List PokedexEntry :=
  [sampleEntry, { sampleEntry with id := 2 }]

theorem list_pokedex_deterministic_spec_witness :
    (list_pokedex db7 1 none none SortField.pokemon_id SortOrder.asc 20 0).Pairwise
      (fun a b => fieldEq SortField.pokemon_id a b = true → a.id < b.id) :=
  (list_pokedex_deterministic_spec db7 1 none none SortField.pokemon_id
    SortOrder.asc 20 0).2 (by decide)

/-- The decoded JWT claims relevant to `get_current_user`: the subject. -/
structure JwtPayload where
  sub : Option String
deriving DecidableEq, Repr

/-- A bearer token as issued by `create_access_token`: claims, absolute
expiry, and the secret/algorithm it was signed with. -/
structure JwtToken where
  payload : JwtPayload
  exp : Nat
  secret : String
  alg : String
deriving DecidableEq, Repr

/-- Modelled from the spec: `jwt.decode` of the JWT library (an out-of-scope
cryptographic collaborator).  Per the spec, resolve "fails with Unauthorized
if signature invalid, expired": decode yields the claims when the token was
signed with the expected secret and algorithm and has not expired, and raises
`JWTError` (here: `none`) otherwise. -/
def jwt_decode (tok : JwtToken) (secret alg : String) (now : Nat) : Option JwtPayload :=
  if tok.secret == secret && tok.alg == alg && decide (now < tok.exp) then
    some tok.payload
  else
    none

/-- A row of the `user` table (`app.models.User`). -/
structure User where
  id : Nat
  username : String
  email : String
  hashed_password : String
  created_at : Nat
  is_active : Bool
deriving DecidableEq, Repr

/-- `get_user_by_username` (app/auth.py). -/
def get_user_by_username (users : List User) (username : String) : Option User :=
  users.find? (fun u => u.username == username)

/-- `get_current_user` (app/auth.py): decode the bearer token, read the `sub`
claim, look the user up, and reject inactive accounts with a distinct error. -/
def get_current_user (users : List User) (tok : JwtToken) (secret alg : String)
    (now : Nat) : Except ApiErr User :=
  match jwt_decode tok secret alg now with
  | none => .error ⟨401, "Could not validate credentials"⟩
  | some payload =>
    match payload.sub with
    | none => .error ⟨401, "Could not validate credentials"⟩
    | some username =>
      match get_user_by_username users username with
      | none => .error ⟨401, "Could not validate credentials"⟩
      | some u =>
        if !u.is_active then .error ⟨400, "Inactive user"⟩
        else .ok u

/-- C8: token resolution fails Unauthorized (401) when the signature is
invalid or the token is expired, when the subject claim is missing, or when no
user carries the subject username; it fails with the distinct InactiveAccount
error (400, not 401) when the resolved user is inactive; and returns the user
otherwise. -/
theorem get_current_user_spec (users : List User) (tok : JwtToken)
    (secret alg : String) (now : Nat) :
    ((tok.secret ≠ secret ∨ tok.alg ≠ alg ∨ tok.exp ≤ now) →
      get_current_user users tok secret alg now
        = .error ⟨401, "Could not validate credentials"⟩) ∧
    (tok.secret = secret → tok.alg = alg → now < tok.exp →
      (tok.payload.sub = none →
        get_current_user users tok secret alg now
          = .error ⟨401, "Could not validate credentials"⟩) ∧
      (∀ un, tok.payload.sub = some un → get_user_by_username users un = none →
        get_current_user users tok secret alg now
          = .error ⟨401, "Could not validate credentials"⟩) ∧
      (∀ un u, tok.payload.sub = some un → get_user_by_username users un = some u →
        u.is_active = false →
        get_current_user users tok secret alg now = .error ⟨400, "Inactive user"⟩ ∧
        (⟨400, "Inactive user"⟩ : ApiErr) ≠ ⟨401, "Could not validate credentials"⟩) ∧
      (∀ un u, tok.payload.sub = some un → get_user_by_username users un = some u →
        u.is_active = true →
        get_current_user users tok secret alg now = .ok u)) := by
  constructor
  · intro h
    have hdec : jwt_decode tok secret alg now = none := by
      unfold jwt_decode
      rcases h with h | h | h
      · simp [h]
      · simp [h]
      · simp [Nat.not_lt.2 h]
    simp [get_current_user, hdec]
  · intro h1 h2 h3
    have hdec : jwt_decode tok secret alg now = some tok.payload := by
      unfold jwt_decode
      simp [h1, h2, h3]
    refine ⟨?_, ?_, ?_, ?_⟩
    · intro hsub
      simp [get_current_user, hdec, hsub]
    · intro un hsub huser
      simp [get_current_user, hdec, hsub, huser]
    · intro un u hsub huser hact
      exact ⟨by simp [get_current_user, hdec, hsub, huser, hact], by decide⟩
    · intro un u hsub huser hact
      simp [get_current_user, hdec, hsub, huser, hact]

/-- A token for subject "u", expiring at time 10, signed with secret "k". -/
def tok8 : JwtToken :=
  { payload := { sub := some "u" }
    exp := 10
    secret := "k"
    alg := "HS256" }

/-- A deactivated user named "u". -/
def user8 : User :=
  { id := 1
    username := "u"
    email := ""
    hashed_password := ""
    created_at := 0
    is_active := false }

theorem get_current_user_spec_witness :
    get_current_user [user8] tok8 "k" "HS256" 10
      = .error ⟨401, "Could not validate credentials"⟩ ∧
    get_current_user [user8] tok8 "k" "HS256" 5
      = .error ⟨400, "Inactive user"⟩ := by
  refine ⟨(get_current_user_spec [user8] tok8 "k" "HS256" 10).1
    (Or.inr (Or.inr (by decide))), ?_⟩
  exact ((get_current_user_spec [user8] tok8 "k" "HS256" 5).2 rfl rfl (by decide)).2.2.1
    "u" user8 rfl rfl rfl |>.1

/-- The sprite fields `_transform_pokemon` reads from the upstream payload:
`sprites.other': {"official-artwork": {front_default}}` and
`sprites.front_default`; each may be absent or JSON null. -/
structure Sprites where
  official_artwork_front_default : Option String
  front_default : Option String
deriving DecidableEq, Repr

/-- One element of the upstream `types` array: `t["type"]["name"]`. -/
structure RawType where
  type_name : String
deriving DecidableEq, Repr

/-- One element of the upstream `stats` array. -/
structure RawStat where
  stat_name : String
  base_stat : Nat
deriving DecidableEq, Repr

/-- The parts of the upstream `/pokemon/{identifier}` JSON payload that
`_transform_pokemon` reads. -/
structure RawPayload where
  id : Nat
  name : String
  sprites : Option Sprites
  types : List RawType
  stats : List RawStat
  abilities : List String
deriving DecidableEq, Repr

/-- `PokeAPIService.SPRITE_BASE_URL`. -/
def SPRITE_BASE_URL : String :=
  "https://raw.githubusercontent.com/PokeAPI/sprites/master/sprites/pokemon/other/official-artwork"

/-- `PokeAPIService._build_sprite_url`. -/
def _build_sprite_url (pokemon_id : Nat) : String :=
  SPRITE_BASE_URL ++ "/" ++ toString pokemon_id ++ ".png"

/-- Python truthiness of an optional string: `None` and the empty string are
falsy under `or`-chaining. -/
def strTruthy : Option String → Option String
  | none => none
  | some s => if s = "" then none else some s

/-- The `or`-chain of `_transform_pokemon`'s sprite resolution: prefer the
official artwork, fall back to the default sprite, fall back to the
constructed URL. -/
def spriteOf (p : RawPayload) : String :=
  let oa := match p.sprites with
    | none => none
    | some s => s.official_artwork_front_default
  let fd := match p.sprites with
    | none => none
    | some s => s.front_default
  match strTruthy oa with
  | some s => s
  | none =>
    match strTruthy fd with
    | some s => s
    | none => _build_sprite_url p.id

/-- `PokeAPIService._transform_pokemon`: the normalized
`{id, name, sprite, types, stats, abilities}` dict. -/
def _transform_pokemon (p : RawPayload) : Pokemon :=
  { id := p.id
    name := p.name
    sprite := spriteOf p
    types := p.types.map (fun t => t.type_name)
    stats := p.stats.map (fun s => { name := s.stat_name, base := s.base_stat })
    abilities := p.abilities }

/-- The outcome of the upstream HTTP GET: a JSON payload, an HTTP status
error raised by `raise_for_status`, or a network error. -/
inductive FetchOutcome
  | ok (payload : RawPayload)
  | httpStatus (code : Nat)
  | network
deriving DecidableEq, Repr

/-- `response.raise_for_status()` combined with `_handle_httpx_error`: 404
maps to NotFound, other status errors to 502, network errors to 503. -/
def raise_for_status : FetchOutcome → Except ApiErr RawPayload
  | .ok p => .ok p
  | .httpStatus code =>
    .error (if code == 404 then ⟨404, "Pokemon not found in PokeAPI"⟩
            else ⟨502, "Error calling PokeAPI"⟩)
  | .network => .error ⟨503, "Error connecting to PokeAPI"⟩

/-- `PokeAPIService.sync_get_pokemon`: fetch and normalize, no cache. -/
def sync_get_pokemon (o : FetchOutcome) : Except ApiErr Pokemon :=
  match raise_for_status o with
  | .error er => .error er
  | .ok payload => .ok (_transform_pokemon payload)

/-- `PokeAPIService._cache_key`: `str(identifier).lower()`. -/
def _cache_key (identifier : String) : String := identifier.toLower

/-- Lookup in the in-memory cache dict (most recent insertion wins). -/
def lookupCache (cache : List (String × Pokemon)) (key : String) : Option Pokemon :=
  (cache.find? (fun kv => kv.1 == key)).map (fun kv => kv.2)

/-- `PokeAPIService.get_pokemon` (the `async` path): serve from the cache when
the key is present, else fetch, normalize, and cache under the requested key
and under the numeric id. -/
def get_pokemon (cache : List (String × Pokemon)) (identifier : String)
    (o : FetchOutcome) : Except ApiErr (Pokemon × List (String × Pokemon)) :=
  let key := _cache_key identifier
  match lookupCache cache key with
  | some pk => .ok (pk, cache)
  | none =>
    match raise_for_status o with
    | .error er => .error er
    | .ok payload =>
      let pk := _transform_pokemon payload
      .ok (pk, (toString pk.id, pk) :: (key, pk) :: cache)

/-- C9: the synchronous and the suspending catalog-item fetch apply the
identical normalization `_transform_pokemon` to the same upstream payload:
on a cache miss they agree exactly (also on errors), and on a cache hit whose
cached value is the normalization of that payload the async path still returns
the same normalized result. -/
theorem sync_async_get_pokemon_spec (identifier : String) (o : FetchOutcome)
    (cache : List (String × Pokemon)) :
    (lookupCache cache (_cache_key identifier) = none →
      (get_pokemon cache identifier o).map Prod.fst = sync_get_pokemon o) ∧
    (∀ payload, o = .ok payload →
      lookupCache cache (_cache_key identifier) = some (_transform_pokemon payload) →
      (get_pokemon cache identifier o).map Prod.fst = sync_get_pokemon o) := by
  constructor
  · intro hmiss
    rcases o with p | code | _ <;>
      simp only [get_pokemon, sync_get_pokemon, hmiss, raise_for_status] <;> try rfl
  · intro payload ho hhit
    subst ho
    simp only [get_pokemon, sync_get_pokemon, hhit, raise_for_status]
    rfl

/-- A minimal upstream payload for catalog id 25 with no usable sprite
fields. -/
def payload9 : RawPayload :=
  { id := 25
    name := "pikachu"
    sprites := some { official_artwork_front_default := none, front_default := some "" }
    types := [{ type_name := "electric" }]
    stats := [{ stat_name := "speed", base_stat := 90 }]
    abilities := ["static"] }

theorem sync_async_get_pokemon_spec_witness :
    (get_pokemon [] "pikachu" (.ok payload9)).map Prod.fst
      = sync_get_pokemon (.ok payload9) ∧
    (get_pokemon [(_cache_key "pikachu", _transform_pokemon payload9)] "pikachu"
        (.ok payload9)).map Prod.fst
      = sync_get_pokemon (.ok payload9) := by
  refine ⟨(sync_async_get_pokemon_spec "pikachu" (.ok payload9) []).1 ?_,
    (sync_async_get_pokemon_spec "pikachu" (.ok payload9)
      [(_cache_key "pikachu", _transform_pokemon payload9)]).2 payload9 rfl ?_⟩
  · rfl
  · unfold lookupCache
    rw [List.find?_cons_of_pos _ (by simp)]
    rfl
